import Mathlib

/-!
# Verification of the roadsense vehicle-listing scraper

Shallow embedding of `src/index.js`: a single-page scraper that
segments a dealer page's listing grid (`getVehicleListings`), captures
padded screenshot sections (`captureListingSection`), sends them to a
vision model, and reconciles the per-section textual output into one
deduplicated JSON document (`mergeResults`).

Strings are embedded as `List Char`; JS numbers appearing in DOM
geometry as `Int` (the source only ever adds/subtracts integral
pixel quantities); fallible JS code (thrown exceptions) as `Except`.
The host runtime's `JSON.parse` (an external collaborator of the
file's own code) is modelled by an executable fuel-based parser
`jsonParse` over the JSON fragment relevant here: it supports
null/true/false, integer numerals, strings with the common escapes,
arrays and objects (duplicate keys: last one wins, as in JS); its
whitespace handling mirrors `JSON.parse`'s tolerance of surrounding
whitespace by trimming the input up front.
-/

namespace RoadSense

/-! ## Character and string primitives (JS `trim`, `toLowerCase`,
`includes`, regex tests), over `List Char` -/

/-- ASCII whitespace, the character class relevant to the JS `trim`
calls and JSON surrounding whitespace in this program. -/
def wsChar (c : Char) : Bool :=
  c = ' ' || c = '\t' || c = '\n' || c = '\r'

/-- Drop leading whitespace (left part of JS `String.prototype.trim`). -/
def trimLeftChars (s : List Char) : List Char :=
  s.dropWhile wsChar

/-- Drop trailing whitespace (right part of JS `String.prototype.trim`). -/
def trimRightChars : List Char → List Char
  | [] => []
  | c :: cs =>
    match trimRightChars cs with
    | [] => if wsChar c then [] else [c]
    | r => c :: r

/-- JS `String.prototype.trim` over `List Char`. -/
def trimChars (s : List Char) : List Char :=
  trimRightChars (trimLeftChars s)

/-- JS `String.prototype.toLowerCase` (ASCII range, which is all the
source's search terms need). -/
def lowerChars (s : List Char) : List Char :=
  s.map Char.toLower

/-- JS `String.prototype.includes`: does `needle` occur as a contiguous
substring of the second argument? -/
def containsSub (needle : List Char) : List Char → Bool
  | [] => needle.isEmpty
  | c :: cs => needle.isPrefixOf (c :: cs) || containsSub needle cs

/-- One-position test for the regex `/20[0-9]{2}/`: does the string
begin with `2`, `0`, then two digits? -/
def yearHere : List Char → Bool
  | '2' :: '0' :: c :: d :: _ => c.isDigit && d.isDigit
  | _ => false

/-- JS `/20[0-9]{2}/.test(s)`: the pattern matches at some position. -/
def hasYearPat : List Char → Bool
  | [] => false
  | c :: rest => yearHere (c :: rest) || hasYearPat rest

/-! ## Markdown fence stripping (from `mergeResults`)

`result.replace(/```json\n?/g, '').replace(/```\n?/g, '').trim()`:
each pass scans left to right and removes every occurrence of the
pattern together with one optional following newline, continuing the
scan after the removed occurrence. -/

/-- First pass: `replace(/```json\n?/g, '')`. -/
def stripJsonFence : List Char → List Char
  | '`' :: '`' :: '`' :: 'j' :: 's' :: 'o' :: 'n' :: '\n' :: rest => stripJsonFence rest
  | '`' :: '`' :: '`' :: 'j' :: 's' :: 'o' :: 'n' :: rest => stripJsonFence rest
  | c :: rest => c :: stripJsonFence rest
  | [] => []

/-- Second pass: `replace(/```\n?/g, '')`. -/
def stripTicks : List Char → List Char
  | '`' :: '`' :: '`' :: '\n' :: rest => stripTicks rest
  | '`' :: '`' :: '`' :: rest => stripTicks rest
  | c :: rest => c :: stripTicks rest
  | [] => []

/-- The Reconciler's fence-stripping step, including the final `trim`
(`src/index.js` lines 309–315). -/
def stripFences (s : List Char) : List Char :=
  trimChars (stripTicks (stripJsonFence s))

/-- Wrapping a text in triple-backtick ```json fences, the canonical
markdown form the Reconciler is written to undo. -/
def wrapJsonFences (s : List Char) : List Char :=
  ('`' :: '`' :: '`' :: 'j' :: 's' :: 'o' :: 'n' :: '\n' :: s) ++ ('\n' :: '`' :: '`' :: '`' :: [])

example : stripFences ("```json\n\x7b\"a\": 1\x7d\n```".toList) = "\x7b\"a\": 1\x7d".toList := by decide

/-! ## JSON values and the host runtime's `JSON.parse`

`JsVal` is the value space the Reconciler manipulates after parsing.
JS object field access on a missing key yields `undefined`; that layer
is modelled by `Option JsVal` (`none` = `undefined`), never by a
`JsVal` constructor, since JSON values themselves cannot contain
`undefined`. -/

inductive JsVal where
  | null : JsVal
  | bool (b : Bool) : JsVal
  | num (n : Int) : JsVal
  | str (s : List Char) : JsVal
  | arr (elems : List JsVal) : JsVal
  | obj (fields : List (List Char × JsVal)) : JsVal

instance : Inhabited JsVal := ⟨JsVal.null⟩

/-- Object field lookup. `JSON.parse` keeps the *last* of duplicate
keys, so the assoc list (kept in source order) is read from the right. -/
def objGet (fields : List (List Char × JsVal)) (k : List Char) : Option JsVal :=
  ((fields.filter (fun p => p.1 == k)).getLast?).map (·.2)

/-- Parse a JSON string body (after the opening quote), returning the
decoded characters and the rest of the input after the closing quote.
Supports the escapes the program's data can contain; `\u` sequences
and unknown escapes make the parse fail. -/
def parseStrBody : List Char → Option (List Char × List Char)
  | [] => none
  | '"' :: rest => some ([], rest)
  | '\\' :: e :: rest =>
    (match e with
     | '"' => some '"'
     | '\\' => some '\\'
     | '/' => some '/'
     | 'n' => some '\n'
     | 't' => some '\t'
     | 'r' => some '\r'
     | _ => none).bind fun c =>
      (parseStrBody rest).map fun (cs, r) => (c :: cs, r)
  | c :: rest => (parseStrBody rest).map fun (cs, r) => (c :: cs, r)

/-- Consume a run of decimal digits, accumulating their value. -/
def parseDigits : Nat → List Char → Nat × List Char
  | acc, c :: rest =>
    if c.isDigit then parseDigits (acc * 10 + (c.toNat - '0'.toNat)) rest
    else (acc, c :: rest)
  | acc, [] => (acc, [])

/-- Parse an integer JSON numeral (optional minus sign, digits).
Fractional/exponent forms are outside the fragment this program's
claims exercise and make the model's parse fail. -/
def parseIntNum : List Char → Option (Int × List Char)
  | '-' :: c :: rest =>
    if c.isDigit then
      let (n, r) := parseDigits 0 (c :: rest)
      some (-(n : Int), r)
    else none
  | c :: rest =>
    if c.isDigit then
      let (n, r) := parseDigits 0 (c :: rest)
      some ((n : Int), r)
    else none
  | [] => none

mutual

/-- Parse one JSON value at the head of the input (leading whitespace
allowed), returning the value and the remaining input. `fuel` bounds
the nesting/element recursion; `jsonParse` supplies enough for its
whole input. -/
def parseVal : Nat → List Char → Option (JsVal × List Char)
  | 0, _ => none
  | fuel + 1, s =>
    match trimLeftChars s with
    | 'n' :: 'u' :: 'l' :: 'l' :: rest => some (.null, rest)
    | 't' :: 'r' :: 'u' :: 'e' :: rest => some (.bool true, rest)
    | 'f' :: 'a' :: 'l' :: 's' :: 'e' :: rest => some (.bool false, rest)
    | '"' :: rest => (parseStrBody rest).map fun (cs, r) => (.str cs, r)
    | '[' :: rest =>
      (match trimLeftChars rest with
       | ']' :: r => some (.arr [], r)
       | _ =>
         (parseVal fuel rest).bind fun (v, r) =>
           (parseArrTail fuel r).map fun (vs, r') => (JsVal.arr (v :: vs), r'))
    | '{' :: rest =>
      (match trimLeftChars rest with
       | '}' :: r => some (.obj [], r)
       | _ =>
         (parseMember fuel rest).bind fun (kv, r) =>
           (parseObjTail fuel r).map fun (kvs, r') => (JsVal.obj (kv :: kvs), r'))
    | other => (parseIntNum other).map fun (n, r) => (.num n, r)

/-- Parse the continuation of an array after one element: either `]`
or `, value` repeated. -/
def parseArrTail : Nat → List Char → Option (List JsVal × List Char)
  | 0, _ => none
  | fuel + 1, s =>
    match trimLeftChars s with
    | ']' :: r => some ([], r)
    | ',' :: r =>
      (parseVal fuel r).bind fun (v, r') =>
        (parseArrTail fuel r').map fun (vs, r'') => (v :: vs, r'')
    | _ => none

/-- Parse one `"key": value` object member. -/
def parseMember : Nat → List Char → Option ((List Char × JsVal) × List Char)
  | 0, _ => none
  | fuel + 1, s =>
    match trimLeftChars s with
    | '"' :: rest =>
      (parseStrBody rest).bind fun (k, r) =>
        match trimLeftChars r with
        | ':' :: r' => (parseVal fuel r').map fun (v, r'') => ((k, v), r'')
        | _ => none
    | _ => none

/-- Parse the continuation of an object after one member: either `\x7d`
or `, member` repeated. -/
def parseObjTail : Nat → List Char → Option (List (List Char × JsVal) × List Char)
  | 0, _ => none
  | fuel + 1, s =>
    match trimLeftChars s with
    | '\x7d' :: r => some ([], r)
    | ',' :: r =>
      (parseMember fuel r).bind fun (kv, r') =>
        (parseObjTail fuel r').map fun (kvs, r'') => (kv :: kvs, r'')
    | _ => none

end

/-- The host `JSON.parse`, as a total function returning `none` where
the real one throws a `SyntaxError`. Surrounding whitespace is
tolerated, as `JSON.parse` tolerates it, by trimming the input before
parsing; trailing non-whitespace input is a parse failure. -/
def jsonParse (s : List Char) : Option JsVal :=
  let t := trimChars s
  (parseVal (t.length + 1) t).bind fun (v, rest) =>
    if (trimLeftChars rest).isEmpty then some v else none

example : jsonParse "null".toList = some .null := by rfl
example :
    jsonParse "\x7b\"vehicles\": [\x7b\"title\": \"Bus A\"\x7d], \"n\": -3\x7d".toList =
      some (.obj [("vehicles".toList, .arr [.obj [("title".toList, .str "Bus A".toList)]]),
                  ("n".toList, .num (-3))]) := by rfl
example : jsonParse "not json".toList = none := by rfl

/-! ## The Result Reconciler: `mergeResults` (`src/index.js` 303–337)

`mergeResults` takes the accumulated raw model outputs (each possibly
`null`), per entry strips fences / trims / `JSON.parse`s inside a
`try`/`catch` that turns any failure into zero vehicles, flattens, and
deduplicates through a JS `Map` keyed by
`vehicle.specifications.stock_number + '-' + vehicle.title` — a key
computation *outside* any `try`/`catch`, so a missing `specifications`
throws out of `mergeResults` (modelled as `Except.error ()`). -/

/-- JS truthiness of a JSON value. -/
def truthy : JsVal → Bool
  | .null => false
  | .bool b => b
  | .num n => n != 0
  | .str s => !s.isEmpty
  | .arr _ => true
  | .obj _ => true

/-- JS property access `v[k]` for the values arising here: `none` is
`undefined` (missing key, or access on a primitive/array), and access
on `null` throws a `TypeError`. -/
def getProp : JsVal → List Char → Except Unit (Option JsVal)
  | .null, _ => .error ()
  | .obj fs, k => .ok (objGet fs k)
  | _, _ => .ok none

/-- JS string coercion of one array element inside `Array.prototype.toString`
(`null` becomes the empty string there). Nested arrays are flattened
to the empty string — a simplification of the host's recursive
stringification that no claim exercises. -/
def jsArrElemStr : JsVal → List Char
  | .null => []
  | .bool true => "true".toList
  | .bool false => "false".toList
  | .num n => (toString n).toList
  | .str s => s
  | .arr _ => []
  | .obj _ => "[object Object]".toList

/-- JS string coercion of a defined value, as performed by `+` with a
string operand. -/
def jsValToString : JsVal → List Char
  | .null => "null".toList
  | .bool true => "true".toList
  | .bool false => "false".toList
  | .num n => (toString n).toList
  | .str s => s
  | .arr l => List.intercalate [','] (l.map jsArrElemStr)
  | .obj _ => "[object Object]".toList

/-- JS string coercion of a possibly-`undefined` value (`undefined`
prints as `"undefined"` under `+`). -/
def jsToStr : Option JsVal → List Char
  | none => "undefined".toList
  | some v => jsValToString v

/-- The `vehicle.specifications.stock_number` chain of the dedup key:
throws when `specifications` is missing (`undefined`) or `null`,
exactly as the JS dereference does. -/
def stockField (v : JsVal) : Except Unit (Option JsVal) := do
  let specs? ← getProp v ("specifications".toList)
  match specs? with
  | none => .error ()
  | some specs => getProp specs ("stock_number".toList)

/-- The `vehicle.title` part of the dedup key. -/
def titleField (v : JsVal) : Except Unit (Option JsVal) :=
  getProp v ("title".toList)

/-- The dedup identity key
`vehicle.specifications.stock_number + '-' + vehicle.title`
(`src/index.js` line 329). -/
def identKey (v : JsVal) : Except Unit (List Char) := do
  let stock? ← stockField v
  let title? ← titleField v
  .ok (jsToStr stock? ++ '-' :: jsToStr title?)

/-- `parsed.vehicles || []` followed by `flatMap`'s one-level
flattening: an array contributes its elements, a truthy non-array
contributes itself as a single element, anything falsy (including the
`undefined` of a missing key or a primitive receiver) contributes
nothing. `parsed` being JSON `null` makes `parsed.vehicles` throw, but
inside the `try`, so it also contributes nothing. -/
def sectionVehicles : JsVal → List JsVal
  | .obj fs =>
    match objGet fs ("vehicles".toList) with
    | some (.arr l) => l
    | some v => if truthy v then [v] else []
    | none => []
  | _ => []

/-- The per-result body of `mergeResults`' `flatMap`: `null` results
and anything whose cleaned text fails to parse contribute zero
vehicles (the `try`/`catch` swallows the parse failure). -/
def parseSection : Option (List Char) → List JsVal
  | none => []
  | some s =>
    match jsonParse (stripFences s) with
    | none => []
    | some parsed => sectionVehicles parsed

/-- One insertion into a JS `Map`: an existing key keeps its position
but takes the new value; a new key is appended. -/
def mapInsert (m : List (List Char × JsVal)) (k : List Char) (v : JsVal) :
    List (List Char × JsVal) :=
  if m.any (fun p => p.1 == k) then
    m.map (fun p => if p.1 == k then (k, v) else p)
  else m ++ [(k, v)]

/-- `new Map(entries)`: left-to-right insertion. -/
def buildMap (entries : List (List Char × JsVal)) : List (List Char × JsVal) :=
  entries.foldl (fun m p => mapInsert m p.1 p.2) []

/-- `allVehicles.map(vehicle => [key, vehicle])`: the key of every
vehicle in order, with the first thrown `TypeError` escaping (the JS
`map` callback runs left to right and nothing catches it here). -/
def keyedEntries : List JsVal → Except Unit (List (List Char × JsVal))
  | [] => .ok []
  | v :: vs => do
    let k ← identKey v
    let rest ← keyedEntries vs
    .ok ((k, v) :: rest)

/-- The deduplication step of `mergeResults` over the flattened vehicle
list: compute every key (this is where a malformed vehicle record
throws), build the `Map`, return its values. -/
def mergeDedup (allVehicles : List JsVal) : Except Unit (List JsVal) := do
  let entries ← keyedEntries allVehicles
  .ok ((buildMap entries).map (·.2))

/-- The flattened vehicle sequence: every section's parsed vehicles in
order (`results.flatMap(...)`, `src/index.js` 304–324). -/
def flatVehicles (results : List (Option (List Char))) : List JsVal :=
  (results.map parseSection).flatten

/-- `mergeResults` (`src/index.js` 303–337), the whole Reconciler:
returns the deduplicated vehicle list of the final
`{ vehicles: uniqueVehicles }`, or `Except.error ()` where the JS
function throws. -/
def mergeResults (results : List (Option (List Char))) : Except Unit (List JsVal) :=
  mergeDedup (flatVehicles results)

example :
    mergeResults [some "\x7b\"vehicles\": [\x7b\"title\": \"A\", \"specifications\": \x7b\"stock_number\": \"s1\"\x7d\x7d]\x7d".toList] =
      .ok [.obj [("title".toList, .str "A".toList),
                 ("specifications".toList, .obj [("stock_number".toList, .str "s1".toList)])]] := by
  rfl

example :
    mergeResults [some "\x7b\"vehicles\": [\x7b\"title\": \"A\"\x7d]\x7d".toList] = .error () := by rfl

/-! ## The Listing Locator: `getVehicleListings` (`src/index.js` 119–173)

A DOM element is abstracted to exactly the observations the source
reads from it: whether it contains an `img`, its rendered offset
dimensions, its text content, and the measurements used to derive the
listing geometry. The DOM itself is abstracted to the candidate
sequences the four `querySelectorAll`-based strategies would return
(strategy 4's `closest` can yield `null`, hence `Option`). -/

structure Element where
  hasImage : Bool
  offsetHeight : Int
  offsetWidth : Int
  textContent : List Char
  offsetTop : Int
  rectHeight : Int
  rectWidth : Int
  marginTop : Int
  marginBottom : Int
  deriving DecidableEq, Repr

/-- The validation predicate applied to every candidate
(`src/index.js` 138–148): has an image, both rendered dimensions
exceed 100px, trimmed text exceeds 50 characters, and the text
mentions price/contact/quote (lower-cased) or matches `/20[0-9]{2}/`. -/
def validate (el : Element) : Bool :=
  let hasPrice := containsSub ("price".toList) (lowerChars el.textContent) ||
                  containsSub ("contact".toList) (lowerChars el.textContent) ||
                  containsSub ("quote".toList) (lowerChars el.textContent)
  let hasYear := hasYearPat el.textContent
  let isVisible := el.offsetHeight > 100 && el.offsetWidth > 100
  let hasContent := (trimChars el.textContent).length > 50
  el.hasImage && isVisible && hasContent && (hasPrice || hasYear)

/-- One strategy's contribution: drop the `null`s (`filter(el => el !== null)`),
keep the candidates passing `validate`. -/
def validOf (candidates : List (Option Element)) : List Element :=
  (candidates.filterMap id).filter validate

/-- `findElements` (`src/index.js` 121–155): try the strategies in
order, return the first non-empty validated set, else `[]`. -/
def findElements : List (List (Option Element)) → List Element
  | [] => []
  | strat :: rest =>
    if (validOf strat).isEmpty then findElements rest else validOf strat

/-- The vertical bounding geometry of one listing
(`ListingGeometry` of the spec). -/
structure Geometry where
  top : Int
  height : Int
  width : Int
  bottom : Int
  deriving DecidableEq, Repr

/-- The geometry derivation applied to each found element
(`src/index.js` 158–171), `padding = 20`. -/
def geometryOf (el : Element) : Geometry :=
  { top := el.offsetTop - el.marginTop
    height := el.rectHeight + el.marginTop + el.marginBottom + 20
    width := el.rectWidth
    bottom := el.offsetTop + el.rectHeight + el.marginBottom + 20 }

/-- `getVehicleListings`: geometry records of the elements found by the
first successful strategy, in DOM order. -/
def getVehicleListings (strategies : List (List (Option Element))) : List Geometry :=
  (findElements strategies).map geometryOf

/-! ## The Section Capturer: `captureListingSection`
(`src/index.js` 175–239) -/

/-- The `SectionCapture` record, minus the screenshot bytes themselves
(the browser screenshot primitive is an external collaborator; its
output does not feed any claim). -/
structure SectionCapture where
  itemCount : Nat
  startIndex : Nat
  endIndex : Nat
  startY : Int
  endY : Int
  height : Int
  deriving DecidableEq, Repr

/-- `captureListingSection`: `null` when `startIndex` is out of range
or the slice is empty; otherwise the padded capture rectangle
(`startY = first.top - padding`, `endY = last.bottom + padding`,
`padding = 20`) and the clamped index range
(`endIndex: Math.min(endIndex, listings.length)`). -/
def captureListingSection (listings : List Geometry) (startIndex endIndex : Nat) :
    Option SectionCapture :=
  if listings.length ≤ startIndex then none
  else
    match (listings.drop startIndex).take (endIndex - startIndex) with
    | [] => none
    | first :: rest =>
      let lastItem := (first :: rest).getLast (by simp)
      let startY := first.top - 20
      let endY := lastItem.bottom + 20
      some { itemCount := rest.length + 1
             startIndex := startIndex
             endIndex := min endIndex listings.length
             startY := startY
             endY := endY
             height := endY - startY }

/-! ## The orchestration of `main` after the Locator
(`src/index.js` 375–428) -/

/-- The start indices visited by
`for (let i = 0; i < listings.length; i += itemsPerSection)`.
`fuel` bounds the iteration count; since the step is positive the loop
runs at most `n` times, so `mainEvents` passes `n`. -/
def sectionStartsAux (k : Nat) : Nat → Nat → Nat → List Nat
  | 0, _, _ => []
  | fuel + 1, i, n => if i < n then i :: sectionStartsAux k fuel (i + k) n else []

/-- Start indices for `n` listings and section size `k`. -/
def sectionStarts (n k : Nat) : List Nat :=
  sectionStartsAux k n 0 n

/-- The observable steps of `main`'s post-Locator flow, in order. -/
inductive Event where
  | captureCall (startIndex endIndex : Nat) : Event
  | extractCall (startIndex endIndex : Nat) : Event
  | outputWritten (vehicles : List JsVal) : Event
  | fatalError (msg : String) : Event

/-- The events of one loop iteration: the capture call, then — only if
the capture returned a section — the vision-extraction call with the
section's clamped index pair. -/
def iterationEvents (listings : List Geometry) (i : Nat) : List Event :=
  .captureCall i (i + 3) ::
    match captureListingSection listings i (i + 3) with
    | none => []
    | some sec => [.extractCall sec.startIndex sec.endIndex]

/-- `main` after `getVehicleListings` returns (`src/index.js` 375–428),
as its trace of observable events. `analyze` abstracts
`analyzeImageWithGPT4Vision` (`null` = swallowed failure; only
non-null analyses are pushed onto `results`). With zero listings the
flow throws `'No vehicle listings found'`, caught by the top-level
`catch`; `itemsPerSection = 3`; a merge failure is likewise caught at
top level after all sections ran. -/
def mainEvents (listings : List Geometry)
    (analyze : SectionCapture → Option (List Char)) : List Event :=
  if listings.length = 0 then [.fatalError "No vehicle listings found"]
  else
    let starts := sectionStarts listings.length 3
    let evs := (starts.map (iterationEvents listings)).flatten
    let results := starts.filterMap fun i =>
      (captureListingSection listings i (i + 3)).bind analyze
    match mergeResults (results.map some) with
    | .ok merged => evs ++ [.outputWritten merged]
    | .error _ => evs ++ [.fatalError "Error during scraping"]

/-! ## The Page Preparer's scroll loop: `autoScroll`
(`src/index.js` 54–91)

Each 200ms tick reads the current `scrollHeight` (abstracted as a
stream `heights : Nat → Nat`), scrolls, and stops when the height was
unchanged across 5 consecutive checks or when the retry counter has
reached `maxRetries = 50`; both stops `resolve()` the promise normally
— the model has no error outcome at all. `none` would mean the fuel
ran out, which `autoScroll_terminates` below rules out. -/

structure ScrollState where
  lastHeight : Nat
  unchangedCount : Nat
  retries : Nat
  deriving DecidableEq, Repr

/-- Why the interval stopped. -/
inductive ScrollStop where
  | heightStable : ScrollStop
  | maxRetries : ScrollStop
  deriving DecidableEq, Repr

/-- One tick of the `setInterval` callback: the unchanged-height check
(and possible stop at 5) runs first, then the retry ceiling check,
then `retries++`. -/
def scrollTick (h : Nat) (s : ScrollState) : ScrollStop ⊕ ScrollState :=
  if s.lastHeight = h then
    if 5 ≤ s.unchangedCount + 1 then .inl .heightStable
    else if 50 ≤ s.retries then .inl .maxRetries
    else .inr ⟨h, s.unchangedCount + 1, s.retries + 1⟩
  else
    if 50 ≤ s.retries then .inl .maxRetries
    else .inr ⟨h, 0, s.retries + 1⟩

/-- Run the interval from tick `t` with the given fuel; returns the
stop reason and the tick at which it fired. -/
def autoScrollRun (heights : Nat → Nat) : Nat → Nat → ScrollState → Option (ScrollStop × Nat)
  | 0, _, _ => none
  | fuel + 1, t, s =>
    match scrollTick (heights t) s with
    | .inl r => some (r, t)
    | .inr s' => autoScrollRun heights fuel (t + 1) s'

/-- `autoScroll`'s loop from its initial state
(`lastHeight = 0`, `unchangedCount = 0`, `retries = 0`). -/
def autoScroll (heights : Nat → Nat) : Option (ScrollStop × Nat) :=
  autoScrollRun heights 52 0 ⟨0, 0, 0⟩

example : autoScroll (fun _ => 1000) = some (.heightStable, 5) := by rfl
example : autoScroll (fun t => t) = some (.maxRetries, 50) := by rfl

/-! ## Concrete inputs used by counterexamples and witnesses -/

/-- A DOM element that passes `validate` (image, 200×200, 53 chars of
text mentioning "price") but whose `marginTop` exceeds its
`offsetTop`, as happens for a margined element at the top of its
offset parent. -/
def cexElement : Element :=
  { hasImage := true
    offsetHeight := 200
    offsetWidth := 200
    textContent := "price price price price price price price price price".toList
    offsetTop := 0
    rectHeight := 50
    rectWidth := 200
    marginTop := 30
    marginBottom := 0 }

/-- A validated element with ordinary margins, for the amended-claim
witness. -/
def goodElement : Element :=
  { hasImage := true
    offsetHeight := 200
    offsetWidth := 200
    textContent := "price price price price price price price price price".toList
    offsetTop := 100
    rectHeight := 300
    rectWidth := 400
    marginTop := 10
    marginBottom := 5 }

/-- Two listing geometries in document order but not sorted by `top`:
the second listing sits far above the first. -/
def cexGeoms : List Geometry :=
  [{ top := 200, height := 120, width := 300, bottom := 300 },
   { top := 0, height := 30, width := 300, bottom := 10 }]

/-- Ten identical listing geometries, for the section-slicing witness. -/
def tenGeoms : List Geometry :=
  List.replicate 10 { top := 0, height := 100, width := 100, bottom := 120 }

/-- Sorted listing geometries for the amended boundary-containment
witness. -/
def sortedGeoms : List Geometry :=
  [{ top := 0, height := 120, width := 300, bottom := 100 },
   { top := 110, height := 120, width := 300, bottom := 210 },
   { top := 220, height := 120, width := 300, bottom := 320 }]

/-- A well-formed JSON document containing a triple backtick inside a
string literal: fence-stripping corrupts it. -/
def cexFenced : List Char := "\x7b\"a\": \"```\"\x7d".toList

/-- The raw result whose JSON is well-formed but whose single vehicle
has no `specifications` field. -/
def cexMissingSpecs : List Char := "\x7b\"vehicles\": [\x7b\"title\": \"Bus A\"\x7d]\x7d".toList

/-- A well-formed vehicle record (stock `s1`, title `T`, price `1`). -/
def cexVehicleA : JsVal :=
  .obj [("title".toList, .str "T".toList),
        ("specifications".toList, .obj [("stock_number".toList, .str "s1".toList)]),
        ("price".toList, .str "1".toList)]

/-- A second record with the same stock number and title but a
different price. -/
def cexVehicleB : JsVal :=
  .obj [("title".toList, .str "T".toList),
        ("specifications".toList, .obj [("stock_number".toList, .str "s1".toList)]),
        ("price".toList, .str "2".toList)]

/-- Two raw results whose vehicles collide on the identity key. -/
def cexDupResults : List (Option (List Char)) :=
  [some "\x7b\"vehicles\": [\x7b\"title\": \"T\", \"specifications\": \x7b\"stock_number\": \"s1\"\x7d, \"price\": \"1\"\x7d]\x7d".toList,
   some "\x7b\"vehicles\": [\x7b\"title\": \"T\", \"specifications\": \x7b\"stock_number\": \"s1\"\x7d, \"price\": \"2\"\x7d]\x7d".toList]

/-- A raw sequence interleaving a `null` entry and a malformed-JSON
entry with one valid entry. -/
def cexMixedResults : List (Option (List Char)) :=
  [none,
   some "not json".toList,
   some "\x7b\"vehicles\": [\x7b\"title\": \"T\", \"specifications\": \x7b\"stock_number\": \"s1\"\x7d, \"price\": \"1\"\x7d]\x7d".toList]

example : flatVehicles cexDupResults = [cexVehicleA, cexVehicleB] := by rfl
example : flatVehicles cexMixedResults = [cexVehicleA] := by rfl

/-- The identity key of a well-formed vehicle record, totalised
(defaulting to `[]` where `identKey` throws); used to phrase the
dedup theorems. -/
def keyOfD (v : JsVal) : List Char :=
  ((identKey v).toOption).getD []

/-- The JS `Map` representation invariant: pairwise distinct keys. -/
def UniqKeys (m : List (List Char × JsVal)) : Prop :=
  (m.map (·.1)).Nodup

/-! # Theorems -/

/-! ## C3: a well-formed JSON input on which `mergeResults` throws -/

/-- **C3**: there is an input whose single entry parses as JSON (an
object with a `vehicles` array whose element lacks `specifications`)
and on which `mergeResults` throws: the identity-key dereference
`vehicle.specifications.stock_number` sits outside the per-result
`try`/`catch`, so the exception escapes the Reconciler. -/
theorem mergeResults_throws_on_missing_specifications :
    jsonParse cexMissingSpecs =
      some (.obj [("vehicles".toList,
                   .arr [.obj [("title".toList, .str "Bus A".toList)]])]) ∧
    mergeResults [some cexMissingSpecs] = .error () :=
  ⟨rfl, rfl⟩

/-! ## C6: empty Locator result aborts the run before any capture -/

/-- **C6**: with an empty listing sequence, `main`'s post-Locator flow
produces exactly one fatal `'No vehicle listings found'` event: no
section capture, no vision extraction, no merged output. -/
theorem empty_listings_abort (analyze : SectionCapture → Option (List Char)) :
    mainEvents [] analyze = [.fatalError "No vehicle listings found"] ∧
    ∀ e ∈ mainEvents [] analyze,
      (∀ a b, e ≠ .captureCall a b) ∧ (∀ a b, e ≠ .extractCall a b) ∧
      (∀ vs, e ≠ .outputWritten vs) := by
  refine ⟨rfl, ?_⟩
  intro e he
  rw [show mainEvents [] analyze = [.fatalError "No vehicle listings found"] from rfl] at he
  simp only [List.mem_singleton] at he
  subst he
  exact ⟨fun a b h => Event.noConfusion h, fun a b h => Event.noConfusion h,
         fun vs h => Event.noConfusion h⟩

/-! ## C10: `autoScroll` stop conditions and termination -/

theorem scrollTick_inr_retries {h : Nat} {s s' : ScrollState}
    (he : scrollTick h s = .inr s') : s.retries < 50 ∧ s'.retries = s.retries + 1 := by
  unfold scrollTick at he
  split_ifs at he with h1 h2 h3 h4
  · injection he with he2
    subst he2
    exact ⟨by omega, rfl⟩
  · injection he with he2
    subst he2
    exact ⟨by omega, rfl⟩

theorem autoScrollRun_isSome (heights : Nat → Nat) :
    ∀ fuel t s, 51 ≤ s.retries + fuel → 1 ≤ fuel →
      (autoScrollRun heights fuel t s).isSome := by
  intro fuel
  induction fuel with
  | zero => intro t s h h1; exact absurd h1 (by omega)
  | succ f ih =>
    intro t s h h1
    rw [autoScrollRun]
    cases he : scrollTick (heights t) s with
    | inl r => simp
    | inr s' =>
      obtain ⟨hlt, hr⟩ := scrollTick_inr_retries he
      exact ih (t + 1) s' (by omega) (by omega)

/-- **C10**: the scroll loop always terminates (the fuel of 52 ticks is
never exhausted), and a tick stops the loop exactly when the height
has now been unchanged for 5 consecutive checks or the retry counter
has reached 50 — with the height-stable stop reported when both hold
at once; both stops are values, not errors. -/
theorem autoScroll_stop_conditions :
    (∀ heights : Nat → Nat, ∃ r t, autoScroll heights = some (r, t)) ∧
    (∀ h s, (∃ r, scrollTick h s = .inl r) ↔
        ((s.lastHeight = h ∧ 5 ≤ s.unchangedCount + 1) ∨ 50 ≤ s.retries)) ∧
    (∀ h s, scrollTick h s = .inl .heightStable ↔
        (s.lastHeight = h ∧ 5 ≤ s.unchangedCount + 1)) := by
  refine ⟨?_, ?_, ?_⟩
  · intro heights
    have hs := autoScrollRun_isSome heights 52 0 ⟨0, 0, 0⟩ (by omega) (by omega)
    rcases Option.isSome_iff_exists.mp hs with ⟨⟨r, t⟩, hx⟩
    exact ⟨r, t, hx⟩
  · intro h s
    constructor
    · rintro ⟨r, hr⟩
      unfold scrollTick at hr
      split_ifs at hr <;> simp_all
    · intro hc
      unfold scrollTick
      split_ifs with h1 h2 h3 h4 <;> simp_all
  · intro h s
    constructor
    · intro hr
      unfold scrollTick at hr
      split_ifs at hr <;> simp_all
    · rintro ⟨h1, h2⟩
      unfold scrollTick
      rw [if_pos h1, if_pos h2]

/-! ## C4: section slicing for 10 listings, 4 sections of 3 -/

theorem captureListingSection_some (listings : List Geometry) (s e : Nat)
    (hs : s < listings.length) (hse : s < e) :
    ∃ sec, captureListingSection listings s e = some sec ∧
      sec.startIndex = s ∧ sec.endIndex = min e listings.length := by
  unfold captureListingSection
  rw [if_neg (by omega)]
  rcases hsec : (listings.drop s).take (e - s) with _ | ⟨first, rest⟩
  · exfalso
    have hl := congrArg List.length hsec
    simp [List.length_take, List.length_drop] at hl
    omega
  · exact ⟨_, rfl, rfl, rfl⟩

/-- **C4**: for 10 listings with sections of 3, the loop issues exactly
the four sections `[0,3) [3,6) [6,9) [9,10)` (the last one's returned
`endIndex` clamped to 10), and any request with `startIndex ≥ 10`
returns `null`. -/
theorem section_slicing (listings : List Geometry) (hlen : listings.length = 10) :
    ((sectionStarts listings.length 3).filterMap
        (fun i => captureListingSection listings i (i + 3))).map
      (fun sec => (sec.startIndex, sec.endIndex)) =
      [(0, 3), (3, 6), (6, 9), (9, 10)] ∧
    (∀ s e, 10 ≤ s → captureListingSection listings s e = none) := by
  constructor
  · obtain ⟨s0, hc0, hi0, he0⟩ := captureListingSection_some listings 0 3 (by omega) (by omega)
    obtain ⟨s3, hc3, hi3, he3⟩ := captureListingSection_some listings 3 6 (by omega) (by omega)
    obtain ⟨s6, hc6, hi6, he6⟩ := captureListingSection_some listings 6 9 (by omega) (by omega)
    obtain ⟨s9, hc9, hi9, he9⟩ := captureListingSection_some listings 9 12 (by omega) (by omega)
    rw [hlen] at he0 he3 he6 he9 ⊢
    rw [show sectionStarts 10 3 = [0, 3, 6, 9] from rfl]
    simp only [List.filterMap_cons, List.filterMap_nil]
    norm_num
    rw [hc0, hc3, hc6, hc9]
    simp [hi0, hi3, hi6, hi9, he0, he3, he6, he9]
  · intro s e hs
    unfold captureListingSection
    rw [if_pos (by omega)]

/-- Witness for `section_slicing` on ten concrete geometries. -/
theorem section_slicing_witness :
    ((sectionStarts tenGeoms.length 3).filterMap
        (fun i => captureListingSection tenGeoms i (i + 3))).map
      (fun sec => (sec.startIndex, sec.endIndex)) =
      [(0, 3), (3, 6), (6, 9), (9, 10)] ∧
    (∀ s e, 10 ≤ s → captureListingSection tenGeoms s e = none) :=
  section_slicing tenGeoms (by decide)

/-! ## C9: geometry invariants `top ≥ 0`, `height > 0` -/

/-- **C9 counterexample**: the claimed invariant fails for a validated
element whose `marginTop` (30) exceeds its `offsetTop` (0): the
returned geometry has `top = -30`. -/
theorem geometry_invariant_counterexample :
    ¬ ∀ g ∈ getVehicleListings [[some cexElement]], 0 ≤ g.top ∧ 0 < g.height := by
  decide

theorem findElements_mem :
    ∀ (strats : List (List (Option Element))) (el : Element),
      el ∈ findElements strats → ∃ cands, cands ∈ strats ∧ some el ∈ cands := by
  intro strats
  induction strats with
  | nil => intro el h; simp [findElements] at h
  | cons s rest ih =>
    intro el h
    rw [findElements] at h
    by_cases hv : (validOf s).isEmpty
    · rw [if_pos hv] at h
      obtain ⟨c, hc, hm⟩ := ih el h
      exact ⟨c, List.mem_cons_of_mem _ hc, hm⟩
    · rw [if_neg hv] at h
      have h1 : el ∈ s.filterMap id := List.mem_of_mem_filter h
      rcases List.mem_filterMap.mp h1 with ⟨a, ha, hae⟩
      refine ⟨s, List.mem_cons_self _ _, ?_⟩
      simp only [id] at hae
      rwa [hae] at ha

/-- **C9 amended**: every geometry returned by `getVehicleListings`
satisfies `top ≥ 0` and `height > 0` provided each candidate element
has non-negative margins, `marginTop ≤ offsetTop` and a non-negative
rendered height; with arbitrary margins the invariant fails
(`geometry_invariant_counterexample`). -/
theorem geometry_invariants (strategies : List (List (Option Element)))
    (hm : ∀ cands ∈ strategies, ∀ el : Element, some el ∈ cands →
        0 ≤ el.marginTop ∧ el.marginTop ≤ el.offsetTop ∧
        0 ≤ el.marginBottom ∧ 0 ≤ el.rectHeight) :
    ∀ g ∈ getVehicleListings strategies, 0 ≤ g.top ∧ 0 < g.height := by
  intro g hg
  rcases List.mem_map.mp hg with ⟨el, hel, rfl⟩
  obtain ⟨cands, hc, hmem⟩ := findElements_mem strategies el hel
  obtain ⟨h1, h2, h3, h4⟩ := hm cands hc el hmem
  unfold geometryOf
  constructor
  · simp only
    omega
  · simp only
    omega

/-! ## C5: boundary containment of the capture rectangle -/

/-- **C5 counterexample**: for a geometry list in document order that is
not sorted by `top` (the second listing lies above the first), the
capture rectangle `[startY, endY]` does *not* contain the span of
every in-range listing: here `startY = 180` but listing 1 has
`top = 0`. -/
theorem boundary_containment_counterexample :
    ¬ ∀ sec, captureListingSection cexGeoms 0 2 = some sec →
        ∀ i (hil : i < cexGeoms.length), i < 2 →
          sec.startY ≤ (cexGeoms.get ⟨i, hil⟩).top ∧
          (cexGeoms.get ⟨i, hil⟩).bottom ≤ sec.endY := by
  intro hcl
  have h := hcl ⟨2, 0, 2, 180, 30, -150⟩ (by rfl) 1 (by decide) (by decide)
  exact absurd h.1 (by decide)

/-- Index arithmetic for slices: element `j` of
`(l.drop s).take n` is element `s + j` of `l`. -/
theorem slice_get (l : List Geometry) (s n j : Nat)
    (hj : j < ((l.drop s).take n).length) :
    ((l.drop s).take n).get ⟨j, hj⟩ =
      l.get ⟨s + j, by simp [List.length_take, List.length_drop] at hj; omega⟩ := by
  simp [List.get_eq_getElem, List.getElem_take, List.getElem_drop]

/-- **C5 amended**: the capture rectangle
(`startY = first.top - 20`, `endY = last.bottom + 20`) contains the
vertical span of every listing with index in
`[startIndex, min endIndex length)` *provided* the geometry sequence
is sorted — tops nondecreasing and bottoms nondecreasing. For
unsorted document order the claim fails
(`boundary_containment_counterexample`). -/
theorem boundary_containment (listings : List Geometry) (s e : Nat)
    (hT : listings.Pairwise (fun a b => a.top ≤ b.top))
    (hB : listings.Pairwise (fun a b => a.bottom ≤ b.bottom))
    (sec : SectionCapture) (hcap : captureListingSection listings s e = some sec)
    (i : Nat) (hsi : s ≤ i) (hie : i < min e listings.length) :
    ∃ hil : i < listings.length,
      sec.startY ≤ (listings.get ⟨i, hil⟩).top ∧
      (listings.get ⟨i, hil⟩).bottom ≤ sec.endY := by
  have hil : i < listings.length := lt_of_lt_of_le hie (min_le_right _ _)
  have hs : s < listings.length := Nat.lt_of_le_of_lt hsi hil
  refine ⟨hil, ?_⟩
  unfold captureListingSection at hcap
  rw [if_neg (by omega)] at hcap
  rcases hsec : (listings.drop s).take (e - s) with _ | ⟨first, rest⟩
  · rw [hsec] at hcap
    exact absurd hcap (by simp)
  · rw [hsec] at hcap
    injection hcap with hcap
    subst hcap
    have hlen : (first :: rest).length = min (e - s) (listings.length - s) := by
      rw [← hsec]
      simp [List.length_take, List.length_drop]
    have hfirst : first = listings.get ⟨s, hs⟩ := by
      have h0 : ((listings.drop s).take (e - s))[0]? = some first := by
        rw [hsec]
        simp
      rw [List.getElem?_take, if_pos (by omega), List.getElem?_drop listings s 0,
        Nat.add_zero] at h0
      rw [show listings[s]? = some (listings.get ⟨s, hs⟩) by
        simp [List.getElem?_eq_getElem, List.get_eq_getElem, hs]] at h0
      exact (Option.some.inj h0).symm
    have hlastlt : s + (first :: rest).length - 1 < listings.length := by
      simp only [List.length_cons] at hlen ⊢
      omega
    have hlast : (first :: rest).getLast (by simp) =
        listings.get ⟨s + (first :: rest).length - 1, hlastlt⟩ := by
      have h1 : ((listings.drop s).take (e - s))[(first :: rest).length - 1]? =
          some ((first :: rest).getLast (by simp)) := by
        rw [hsec]
        simp [List.getElem?_eq_getElem, List.getLast_eq_getElem]
      rw [List.getElem?_take, if_pos (by simp only [List.length_cons] at hlen ⊢; omega),
        List.getElem?_drop listings s _] at h1
      rw [show s + ((first :: rest).length - 1) = s + (first :: rest).length - 1 by
        simp only [List.length_cons]
        omega] at h1
      rw [List.getElem?_eq_getElem hlastlt] at h1
      have h3 := Option.some.inj h1
      rw [List.get_eq_getElem]
      exact h3.symm
    have htop : (listings.get ⟨s, hs⟩).top ≤ (listings.get ⟨i, hil⟩).top := by
      rcases Nat.eq_or_lt_of_le hsi with h | h
      · simp [h]
      · exact List.pairwise_iff_get.mp hT ⟨s, hs⟩ ⟨i, hil⟩ h
    have hibot : i ≤ s + (first :: rest).length - 1 := by
      simp only [List.length_cons] at hlen ⊢
      omega
    have hbot : (listings.get ⟨i, hil⟩).bottom ≤
        (listings.get ⟨s + (first :: rest).length - 1, hlastlt⟩).bottom := by
      rcases Nat.eq_or_lt_of_le hibot with h | h
      · simp [h]
      · exact List.pairwise_iff_get.mp hB ⟨i, hil⟩ _ h
    constructor
    · show first.top - 20 ≤ _
      rw [hfirst]
      omega
    · show _ ≤ ((first :: rest).getLast (by simp)).bottom + 20
      rw [hlast]
      omega

/-- Witness for `boundary_containment` on a concrete sorted geometry
list: for `captureListingSection sortedGeoms 0 2`, listing 1 lies
inside the rectangle. -/
theorem boundary_containment_witness :
    ∃ hil : 1 < sortedGeoms.length,
      (⟨2, 0, 2, -20, 230, 250⟩ : SectionCapture).startY ≤
        (sortedGeoms.get ⟨1, hil⟩).top ∧
      (sortedGeoms.get ⟨1, hil⟩).bottom ≤
        (⟨2, 0, 2, -20, 230, 250⟩ : SectionCapture).endY :=
  boundary_containment sortedGeoms 0 2 (by decide) (by decide) _ rfl 1
    (by decide) (by decide)

/-! ## C7: locator strategy order and the validation predicate -/

theorem isPrefixOf_iff : ∀ (l₁ l₂ : List Char),
    l₁.isPrefixOf l₂ = true ↔ ∃ t, l₂ = l₁ ++ t := by
  intro l₁
  induction l₁ with
  | nil => intro l₂; simp [List.isPrefixOf]
  | cons a as ih =>
    intro l₂
    cases l₂ with
    | nil => simp [List.isPrefixOf]
    | cons b bs =>
      simp only [List.isPrefixOf, Bool.and_eq_true, beq_iff_eq, ih bs, List.cons_append,
        List.cons.injEq]
      constructor
      · rintro ⟨rfl, t, rfl⟩
        exact ⟨t, rfl, rfl⟩
      · rintro ⟨t, rfl, rfl⟩
        exact ⟨rfl, t, rfl⟩

theorem containsSub_iff (n : List Char) :
    ∀ l, containsSub n l = true ↔ ∃ pre post, l = pre ++ n ++ post := by
  intro l
  induction l with
  | nil =>
    simp only [containsSub]
    constructor
    · intro h
      exact ⟨[], [], by simp [List.isEmpty_iff.mp h]⟩
    · rintro ⟨pre, post, h⟩
      rw [List.isEmpty_iff]
      rcases List.append_eq_nil.mp (List.append_eq_nil.mp h.symm).1 with ⟨-, h2⟩
      exact h2
  | cons c cs ih =>
    simp only [containsSub, Bool.or_eq_true, ih, isPrefixOf_iff]
    constructor
    · rintro (⟨t, ht⟩ | ⟨pre, post, hp⟩)
      · exact ⟨[], t, by simp [ht]⟩
      · exact ⟨c :: pre, post, by simp [hp]⟩
    · rintro ⟨pre, post, hp⟩
      cases pre with
      | nil => exact Or.inl ⟨post, by simpa using hp⟩
      | cons p pre' =>
        refine Or.inr ?_
        injection hp with h1 h2
        exact ⟨pre', post, h2⟩

theorem yearHere_iff (l : List Char) :
    yearHere l = true ↔
      ∃ c d t, l = '2' :: '0' :: c :: d :: t ∧ c.isDigit ∧ d.isDigit := by
  constructor
  · intro h
    unfold yearHere at h
    split at h
    · next c d t =>
      rw [Bool.and_eq_true] at h
      exact ⟨c, d, t, rfl, h.1, h.2⟩
    · exact absurd h (by simp)
  · rintro ⟨c, d, t, rfl, hc, hd⟩
    simp [yearHere, hc, hd]

theorem hasYearPat_iff : ∀ l, hasYearPat l = true ↔
    ∃ pre c d post, l = pre ++ '2' :: '0' :: c :: d :: post ∧ c.isDigit ∧ d.isDigit := by
  intro l
  induction l with
  | nil =>
    simp only [hasYearPat]
    constructor
    · intro h
      exact absurd h (by simp)
    · rintro ⟨pre, c, d, post, h, -, -⟩
      cases pre <;> simp at h
  | cons x xs ih =>
    simp only [hasYearPat, Bool.or_eq_true, ih, yearHere_iff]
    constructor
    · rintro (⟨c, d, t, heq, hc, hd⟩ | ⟨pre, c, d, post, heq, hc, hd⟩)
      · exact ⟨[], c, d, t, by simpa using heq, hc, hd⟩
      · exact ⟨x :: pre, c, d, post, by simp [heq], hc, hd⟩
    · rintro ⟨pre, c, d, post, heq, hc, hd⟩
      cases pre with
      | nil => exact Or.inl ⟨c, d, post, by simpa using heq, hc, hd⟩
      | cons p pre' =>
        refine Or.inr ?_
        injection heq with h1 h2
        exact ⟨pre', c, d, post, h2, hc, hd⟩

theorem findElements_eq : ∀ strats : List (List (Option Element)),
    findElements strats =
      ((strats.map validOf).find? (fun l => !l.isEmpty)).getD [] := by
  intro strats
  induction strats with
  | nil => rfl
  | cons s rest ih =>
    rw [findElements]
    by_cases hv : (validOf s).isEmpty
    · rw [if_pos hv, ih]
      simp [List.find?_cons, hv]
    · rw [if_neg hv]
      simp [List.find?_cons, hv]

/-- **C7**: the Locator returns the validated set of the first strategy
whose validated set is non-empty (later strategies are irrelevant to
the result), and validation accepts an element iff it has an image,
both rendered dimensions exceed 100px, its trimmed text exceeds 50
characters, and the text mentions price/contact/quote (lower-cased)
or contains the year pattern `20` followed by two digits. -/
theorem locator_first_success :
    (∀ strategies : List (List (Option Element)),
       findElements strategies =
         ((strategies.map validOf).find? (fun l => !l.isEmpty)).getD []) ∧
    (∀ el : Element, validate el = true ↔
       (el.hasImage = true ∧ 100 < el.offsetHeight ∧ 100 < el.offsetWidth ∧
        50 < (trimChars el.textContent).length ∧
        ((∃ pre post, lowerChars el.textContent = pre ++ "price".toList ++ post) ∨
         (∃ pre post, lowerChars el.textContent = pre ++ "contact".toList ++ post) ∨
         (∃ pre post, lowerChars el.textContent = pre ++ "quote".toList ++ post) ∨
         (∃ pre c d post, el.textContent = pre ++ '2' :: '0' :: c :: d :: post ∧
            c.isDigit ∧ d.isDigit)))) := by
  refine ⟨findElements_eq, ?_⟩
  intro el
  unfold validate
  simp only [Bool.and_eq_true, Bool.or_eq_true, decide_eq_true_eq,
    containsSub_iff, hasYearPat_iff]
  generalize (∃ pre post : List Char,
    lowerChars el.textContent = pre ++ "price".toList ++ post) = P1
  generalize (∃ pre post : List Char,
    lowerChars el.textContent = pre ++ "contact".toList ++ post) = P2
  generalize (∃ pre post : List Char,
    lowerChars el.textContent = pre ++ "quote".toList ++ post) = P3
  generalize (∃ pre c d post, el.textContent = pre ++ '2' :: '0' :: c :: d :: post ∧
    c.isDigit = true ∧ d.isDigit = true) = P4
  tauto

/-! ## C8: fenced-JSON stripping

The two regex passes scan left to right; since every pattern starts
with three backticks and the wrapped payload is followed by `'\n'`,
a payload containing no triple backtick is copied verbatim by both
passes. -/

theorem stripTicks_cons_of_not_tick (c : Char) (t : List Char)
    (h : (['`', '`', '`'].isPrefixOf (c :: t)) = false) :
    stripTicks (c :: t) = c :: stripTicks t := by
  rw [stripTicks.eq_def]
  split <;> simp_all [List.isPrefixOf]

theorem stripJsonFence_cons_of_not_fence (c : Char) (t : List Char)
    (h : (['`', '`', '`', 'j', 's', 'o', 'n'].isPrefixOf (c :: t)) = false) :
    stripJsonFence (c :: t) = c :: stripJsonFence t := by
  rw [stripJsonFence.eq_def]
  split <;> simp_all [List.isPrefixOf]

/-- `"```json"` begins with `"```"`, so a triple-backtick-free position
cannot start a `"```json"` match either. -/
theorem isPrefixOf_triple_of_fence (l : List Char) :
    (['`', '`', '`', 'j', 's', 'o', 'n'].isPrefixOf l) = true →
      (['`', '`', '`'].isPrefixOf l) = true := by
  rw [isPrefixOf_iff, isPrefixOf_iff]
  rintro ⟨t, rfl⟩
  exact ⟨'j' :: 's' :: 'o' :: 'n' :: t, rfl⟩

/-- With no triple backtick in `C` and a `'\n'` right after it, no
`"```"` match can start inside `C` or span the boundary. -/
theorem not_triple_at_boundary (c : Char) (cs u : List Char)
    (hp : (['`', '`', '`'].isPrefixOf (c :: cs)) = false) :
    (['`', '`', '`'].isPrefixOf (c :: (cs ++ '\n' :: u))) = false := by
  cases cs with
  | nil => simp [List.isPrefixOf]
  | cons c2 cs2 =>
    cases cs2 with
    | nil => simp [List.isPrefixOf]
    | cons c3 cs3 =>
      simp [List.isPrefixOf] at hp ⊢
      exact hp

theorem stripTicks_append (C u : List Char)
    (hb : containsSub ['`', '`', '`'] C = false) :
    stripTicks (C ++ '\n' :: u) = C ++ stripTicks ('\n' :: u) := by
  induction C with
  | nil => simp
  | cons c cs ih =>
    simp only [containsSub, Bool.or_eq_false_iff] at hb
    rw [List.cons_append,
      stripTicks_cons_of_not_tick c _ (not_triple_at_boundary c cs u hb.1),
      ih hb.2, List.cons_append]

theorem stripJsonFence_append (C u : List Char)
    (hb : containsSub ['`', '`', '`'] C = false) :
    stripJsonFence (C ++ '\n' :: u) = C ++ stripJsonFence ('\n' :: u) := by
  induction C with
  | nil => simp
  | cons c cs ih =>
    simp only [containsSub, Bool.or_eq_false_iff] at hb
    have hf : (['`', '`', '`', 'j', 's', 'o', 'n'].isPrefixOf (c :: (cs ++ '\n' :: u))) = false := by
      cases hx : (['`', '`', '`', 'j', 's', 'o', 'n'].isPrefixOf (c :: (cs ++ '\n' :: u))) with
      | false => rfl
      | true =>
        have h3 := isPrefixOf_triple_of_fence _ hx
        rw [not_triple_at_boundary c cs u hb.1] at h3
        exact h3.symm
    rw [List.cons_append, stripJsonFence_cons_of_not_fence c _ hf, ih hb.2,
      List.cons_append]

theorem trimRightChars_append_newline :
    ∀ l : List Char, trimRightChars (l ++ ['\n']) = trimRightChars l := by
  intro l
  induction l with
  | nil => rfl
  | cons c cs ih =>
    simp only [List.cons_append, trimRightChars, List.append_eq]
    rw [ih]

theorem trimChars_append_newline (C : List Char) :
    trimChars (C ++ ['\n']) = trimChars C := by
  unfold trimChars trimLeftChars
  rw [List.dropWhile_append]
  by_cases h : (C.dropWhile wsChar).isEmpty
  · rw [if_pos h, List.isEmpty_iff.mp h]
    rfl
  · rw [if_neg h, trimRightChars_append_newline]

theorem dropWhile_wsChar_idem (l : List Char) :
    (l.dropWhile wsChar).dropWhile wsChar = l.dropWhile wsChar := by
  induction l with
  | nil => rfl
  | cons c cs ih =>
    by_cases h : wsChar c = true
    · rw [List.dropWhile_cons, if_pos h, ih]
    · rw [List.dropWhile_cons, if_neg h, List.dropWhile_cons, if_neg h]

theorem trimRightChars_idem :
    ∀ l : List Char, trimRightChars (trimRightChars l) = trimRightChars l := by
  intro l
  induction l with
  | nil => rfl
  | cons c cs ih =>
    cases hr : trimRightChars cs with
    | nil =>
      simp only [trimRightChars, hr]
      by_cases h : wsChar c = true
      · rw [if_pos h]
        rfl
      · rw [if_neg h]
        simp [trimRightChars, if_neg h]
    | cons r rs =>
      have ho : trimRightChars (c :: cs) = c :: r :: rs := by
        rw [show trimRightChars (c :: cs) = (match trimRightChars cs with
            | [] => if wsChar c = true then [] else [c]
            | r => c :: r) from rfl, hr]
      have h2 : trimRightChars (r :: rs) = r :: rs := by
        rw [hr] at ih
        exact ih
      rw [ho, show trimRightChars (c :: r :: rs) = (match trimRightChars (r :: rs) with
          | [] => if wsChar c = true then [] else [c]
          | r => c :: r) from rfl, h2]

theorem dropWhile_trimRightChars (X : List Char) (h : X.dropWhile wsChar = X) :
    (trimRightChars X).dropWhile wsChar = trimRightChars X := by
  cases X with
  | nil => rfl
  | cons c cs =>
    have hc : wsChar c = false := by
      rw [List.dropWhile_cons] at h
      by_cases hw : wsChar c = true
      · rw [if_pos hw] at h
        have hlen := congrArg List.length h
        have hle := (List.dropWhile_suffix (l := cs) wsChar).sublist.length_le
        simp only [List.length_cons] at hlen
        omega
      · simpa using hw
    simp only [trimRightChars]
    cases hr : trimRightChars cs with
    | nil => simp [List.dropWhile_cons, hc]
    | cons r rs => simp [List.dropWhile_cons, hc]

theorem trimChars_idem (l : List Char) : trimChars (trimChars l) = trimChars l := by
  show trimRightChars (trimLeftChars (trimRightChars (trimLeftChars l))) =
    trimRightChars (trimLeftChars l)
  rw [show trimLeftChars (trimRightChars (trimLeftChars l)) =
      trimRightChars (trimLeftChars l) from
    dropWhile_trimRightChars _ (dropWhile_wsChar_idem l), trimRightChars_idem]

/-- `JSON.parse` ignores surrounding whitespace: parsing a trimmed
input gives the same result. -/
theorem jsonParse_trimChars (s : List Char) : jsonParse (trimChars s) = jsonParse s := by
  unfold jsonParse
  rw [trimChars_idem]

/-- The composite: stripping the fences off a wrapped payload with no
triple backtick yields exactly the trimmed payload. -/
theorem stripFences_wrap (C : List Char)
    (hb : containsSub ['`', '`', '`'] C = false) :
    stripFences (wrapJsonFences C) = trimChars C := by
  unfold stripFences wrapJsonFences
  simp only [List.cons_append]
  rw [show stripJsonFence ('`' :: '`' :: '`' :: 'j' :: 's' :: 'o' :: 'n' :: '\n' ::
        (C ++ '\n' :: '`' :: '`' :: '`' :: [])) =
      stripJsonFence (C ++ '\n' :: ('`' :: '`' :: '`' :: [])) from rfl]
  rw [stripJsonFence_append C _ hb]
  rw [show stripJsonFence ('\n' :: ('`' :: '`' :: '`' :: [])) =
      '\n' :: '`' :: '`' :: '`' :: [] from rfl]
  rw [show (C ++ '\n' :: '`' :: '`' :: '`' :: []) = C ++ '\n' :: ('`' :: '`' :: '`' :: []) from rfl]
  rw [stripTicks_append C _ hb]
  rw [show stripTicks ('\n' :: ('`' :: '`' :: '`' :: [])) = ['\n'] from rfl]
  exact trimChars_append_newline C

/-- **C8 counterexample**: for the well-formed JSON document
`{"a": "```"}` the fence stripping also deletes the backticks *inside*
the string literal, so the stripped text parses to a different value
(`{"a": ""}`) than the unwrapped content. -/
theorem fenced_json_counterexample :
    jsonParse (stripFences (wrapJsonFences cexFenced)) ≠ jsonParse cexFenced := by
  have h1 : jsonParse (stripFences (wrapJsonFences cexFenced)) =
      some (.obj [("a".toList, .str [])]) := by rfl
  have h2 : jsonParse cexFenced =
      some (.obj [("a".toList, .str "```".toList)]) := by rfl
  rw [h1, h2]
  intro h
  injection h with h
  injection h with h
  injection h with h h'
  have h3 := congrArg Prod.snd h
  injection h3 with h4
  exact List.noConfusion h4

/-- **C8 amended**: for every payload containing no triple backtick (in
particular every such JSON document), the text produced by the
Reconciler's fence-stripping of the ```json-wrapped payload parses to
the same value as the payload itself; with backtick runs inside the
payload the claim fails (`fenced_json_counterexample`). -/
theorem fenced_json_strip (C : List Char)
    (hb : containsSub ['`', '`', '`'] C = false) :
    jsonParse (stripFences (wrapJsonFences C)) = jsonParse C := by
  rw [stripFences_wrap C hb, jsonParse_trimChars]

/-- Witness for `fenced_json_strip` at a concrete document. -/
theorem fenced_json_strip_witness :
    containsSub ['`', '`', '`'] ("\x7b\"x\": 1\x7d".toList) = false ∧
    jsonParse (stripFences (wrapJsonFences ("\x7b\"x\": 1\x7d".toList))) =
      jsonParse ("\x7b\"x\": 1\x7d".toList) :=
  ⟨by decide, fenced_json_strip _ (by decide)⟩

/-- Witness for `geometry_invariants` at a concrete one-strategy DOM:
the geometry of `goodElement` is returned and satisfies the
invariants. -/
theorem geometry_invariants_witness :
    0 ≤ (geometryOf goodElement).top ∧ 0 < (geometryOf goodElement).height :=
  geometry_invariants [[some goodElement]]
    (by
      intro cands hc el hmem
      simp only [List.mem_singleton] at hc
      subst hc
      simp only [List.mem_singleton, Option.some.injEq] at hmem
      subst hmem
      decide)
    (geometryOf goodElement) (by decide)

/-! ## C1/C2: deduplication through the JS `Map`

The `Map` built by `new Map(entries)` is modelled by `buildMap`
(unique-keyed assoc list in insertion order, last value wins). The
lemmas below characterise its per-key content and the provenance of
its values, then the two Reconciler theorems follow. -/

theorem bool_not_true {b : Bool} (h : ¬ b = true) : b = false := by
  cases b
  · rfl
  · exact absurd rfl h

theorem any_key_eq_false {m : List (List Char × JsVal)} {k : List Char}
    (h : m.any (fun p => p.1 == k) = false) : ∀ q ∈ m, (q.1 == k) = false := by
  intro q hq
  cases hx : (q.1 == k) with
  | false => rfl
  | true =>
    have ht : m.any (fun p => p.1 == k) = true := List.any_eq_true.mpr ⟨q, hq, hx⟩
    rw [h] at ht
    exact Bool.noConfusion ht

theorem mapInsert_uniq (m : List (List Char × JsVal)) (k : List Char) (v : JsVal)
    (h : UniqKeys m) : UniqKeys (mapInsert m k v) := by
  unfold mapInsert
  by_cases ha : m.any (fun p => p.1 == k) = true
  · rw [if_pos ha]
    unfold UniqKeys at h ⊢
    rw [List.map_map]
    rw [List.map_congr_left (g := (·.1)) (fun p _ => by
      by_cases hpk : (p.1 == k) = true
      · simp only [Function.comp, if_pos hpk]
        exact (beq_iff_eq.mp hpk).symm
      · simp only [Function.comp, if_neg hpk])]
    exact h
  · rw [if_neg ha]
    unfold UniqKeys at h ⊢
    rw [List.map_append]
    have hnk : k ∉ m.map (·.1) := by
      intro hk
      rcases List.mem_map.mp hk with ⟨q, hq, hq1⟩
      have hf := any_key_eq_false (bool_not_true ha) q hq
      rw [hq1] at hf
      simp at hf
    simp [List.nodup_append, h, hnk]

theorem mapInsert_filter_self (m : List (List Char × JsVal)) (k : List Char)
    (v : JsVal) (h : UniqKeys m) :
    (mapInsert m k v).filter (fun p => p.1 == k) = [(k, v)] := by
  induction m with
  | nil => simp [mapInsert]
  | cons p m' ih =>
    have hu' : UniqKeys m' := by
      unfold UniqKeys at h
      exact (List.nodup_cons.mp h).2
    by_cases hpk : (p.1 == k) = true
    · have hany : ((p :: m').any (fun q => q.1 == k)) = true := by
        simp [List.any_cons, hpk]
      rw [mapInsert, if_pos hany, List.map_cons, if_pos hpk, List.filter_cons]
      have hknot : ∀ q ∈ m', (q.1 == k) = false := by
        intro q hq
        have hp1 : p.1 ∉ m'.map (·.1) := by
          unfold UniqKeys at h
          exact (List.nodup_cons.mp h).1
        cases hx : (q.1 == k) with
        | false => rfl
        | true =>
          exfalso
          apply hp1
          rw [beq_iff_eq.mp hpk, ← beq_iff_eq.mp hx]
          exact List.mem_map.mpr ⟨q, hq, rfl⟩
      have hnilf : (m'.map (fun q => if q.1 == k then (k, v) else q)).filter
          (fun p => p.1 == k) = [] := by
        rw [List.filter_eq_nil_iff]
        intro a ha
        rcases List.mem_map.mp ha with ⟨q, hq, rfl⟩
        simp [if_neg (by simp [hknot q hq] : ¬(q.1 == k) = true), hknot q hq]
      rw [hnilf, if_pos (show ((k, v).1 == k) = true by simp)]
    · by_cases hany : (m'.any (fun q => q.1 == k)) = true
      · have hany2 : ((p :: m').any (fun q => q.1 == k)) = true := by
          simp [List.any_cons, hany]
        rw [mapInsert, if_pos hany2, List.map_cons, if_neg hpk, List.filter_cons]
        have ihh := ih hu'
        rw [mapInsert, if_pos hany] at ihh
        simp only [hpk]
        exact ihh
      · have hpk' : (p.1 == k) = false := bool_not_true hpk
        have hany' : (m'.any (fun q => q.1 == k)) = false := bool_not_true hany
        have hany2 : ¬ ((p :: m').any (fun q => q.1 == k)) = true := by
          simp [List.any_cons, hpk', hany']
        rw [mapInsert, if_neg hany2, List.cons_append, List.filter_cons,
          List.filter_append]
        have hf : m'.filter (fun q => q.1 == k) = [] := by
          rw [List.filter_eq_nil_iff]
          intro a ha
          simp [any_key_eq_false hany' a ha]
        simp [hpk', hf]

theorem mapReplace_filter_other (m : List (List Char × JsVal)) (k : List Char)
    (v : JsVal) (k' : List Char) (hkk : (k == k') = false) :
    (m.map (fun p => if p.1 == k then (k, v) else p)).filter (fun p => p.1 == k') =
      m.filter (fun p => p.1 == k') := by
  induction m with
  | nil => rfl
  | cons p m' ih =>
    rw [List.map_cons, List.filter_cons, List.filter_cons]
    by_cases hp : (p.1 == k) = true
    · have hpp : (p.1 == k') = false := by
        rw [beq_iff_eq.mp hp]
        exact hkk
      rw [if_pos hp, if_neg (by simp [hkk]), if_neg (by simp [hpp])]
      exact ih
    · rw [if_neg hp, ih]

theorem mapInsert_filter_other (m : List (List Char × JsVal)) (k : List Char)
    (v : JsVal) (k' : List Char) (hkk : (k == k') = false) :
    (mapInsert m k v).filter (fun p => p.1 == k') =
      m.filter (fun p => p.1 == k') := by
  unfold mapInsert
  by_cases ha : m.any (fun p => p.1 == k) = true
  · rw [if_pos ha]
    exact mapReplace_filter_other m k v k' hkk
  · rw [if_neg ha, List.filter_append]
    simp [hkk]

/-- Per-key content of the `Map` after inserting `l` on top of a
unique-keyed `acc`: the key holds the *last* value with that key in
`l`, or whatever `acc` held when `l` has none. -/
theorem buildMapAux_filter :
    ∀ (l acc : List (List Char × JsVal)) (k : List Char), UniqKeys acc →
      ((l.foldl (fun m p => mapInsert m p.1 p.2) acc).filter (fun p => p.1 == k)) =
        ((l.filter (fun p => p.1 == k)).getLast?).elim
          (acc.filter (fun p => p.1 == k)) (fun q => [(k, q.2)]) := by
  intro l
  induction l with
  | nil =>
    intro acc k hu
    simp
  | cons p l' ih =>
    intro acc k hu
    rw [List.foldl_cons, ih _ k (mapInsert_uniq _ _ _ hu), List.filter_cons]
    by_cases hp : (p.1 == k) = true
    · rw [if_pos hp]
      cases hl : (l'.filter (fun q => q.1 == k)).getLast? with
      | none =>
        have hnil : l'.filter (fun q => q.1 == k) = [] :=
          List.getLast?_eq_none_iff.mp hl
        rw [hnil]
        simp only [Option.elim, List.getLast?_singleton]
        rw [show mapInsert acc p.1 p.2 = mapInsert acc k p.2 by
          rw [beq_iff_eq.mp hp]]
        exact mapInsert_filter_self acc k p.2 hu
      | some q =>
        rcases hfl : l'.filter (fun q => q.1 == k) with _ | ⟨a, as⟩
        · rw [hfl] at hl
          exact absurd hl (by simp)
        · rw [hfl] at hl
          rw [hfl, List.getLast?_cons_cons, hl]
          rfl
    · rw [if_neg hp]
      rw [mapInsert_filter_other acc p.1 p.2 k (bool_not_true hp)]

/-- Per-key content of `buildMap`: exactly one pair per present key,
holding the last value inserted for it. -/
theorem buildMap_filter (entries : List (List Char × JsVal)) (k : List Char) :
    (buildMap entries).filter (fun p => p.1 == k) =
      ((entries.filter (fun p => p.1 == k)).getLast?).elim []
        (fun q => [(k, q.2)]) := by
  have h := buildMapAux_filter entries [] k (by simp [UniqKeys])
  simpa [buildMap] using h

/-- Every pair of the built `Map` is one of the inserted entries. -/
theorem mem_buildMapAux :
    ∀ (l acc : List (List Char × JsVal)) (q : List Char × JsVal),
      q ∈ l.foldl (fun m p => mapInsert m p.1 p.2) acc → q ∈ acc ∨ q ∈ l := by
  intro l
  induction l with
  | nil =>
    intro acc q h
    exact Or.inl h
  | cons p l' ih =>
    intro acc q h
    rw [List.foldl_cons] at h
    rcases ih _ q h with h2 | h2
    · unfold mapInsert at h2
      by_cases ha : acc.any (fun r => r.1 == p.1) = true
      · rw [if_pos ha] at h2
        rcases List.mem_map.mp h2 with ⟨r, hr, hrq⟩
        by_cases hrk : (r.1 == p.1) = true
        · rw [if_pos hrk] at hrq
          refine Or.inr ?_
          rw [← hrq]
          exact List.mem_cons_self p l'
        · rw [if_neg hrk] at hrq
          exact Or.inl (hrq ▸ hr)
      · rw [if_neg ha] at h2
        rcases List.mem_append.mp h2 with h3 | h3
        · exact Or.inl h3
        · simp only [List.mem_singleton] at h3
          exact Or.inr (h3 ▸ List.mem_cons_self p l')
    · exact Or.inr (List.mem_cons_of_mem _ h2)

theorem buildMap_mem (entries : List (List Char × JsVal))
    (q : List Char × JsVal) (h : q ∈ buildMap entries) : q ∈ entries := by
  rcases mem_buildMapAux entries [] q h with h2 | h2
  · exact absurd h2 (List.not_mem_nil q)
  · exact h2

/-- When every vehicle's key computation succeeds, `keyedEntries`
returns the keyed pairing in order. -/
theorem keyedEntries_ok (vs : List JsVal)
    (h : ∀ v ∈ vs, ∃ k, identKey v = .ok k) :
    keyedEntries vs = .ok (vs.map (fun v => (keyOfD v, v))) := by
  induction vs with
  | nil => rfl
  | cons v vs ih =>
    obtain ⟨k, hk⟩ := h v (List.mem_cons_self v vs)
    have hkd : keyOfD v = k := by
      rw [keyOfD, hk]
      rfl
    rw [keyedEntries, hk, ih (fun w hw => h w (List.mem_cons_of_mem v hw)),
      List.map_cons, hkd]
    rfl

/-- **C2**: for any raw sequence interleaving `null` entries and
malformed-JSON entries with valid entries (entries whose vehicles are
well-formed records, i.e. their key computation succeeds),
`mergeResults` returns normally, its output draws only on the
flattened vehicles of the valid entries, and a `null` or unparseable
entry contributes zero vehicles. -/
theorem merge_null_tolerance (results : List (Option (List Char)))
    (h : ∀ v ∈ flatVehicles results, ∃ k, identKey v = .ok k) :
    (∃ out, mergeResults results = .ok out ∧ ∀ v ∈ out, v ∈ flatVehicles results) ∧
    parseSection none = [] ∧
    (∀ s, jsonParse (stripFences s) = none → parseSection (some s) = []) := by
  refine ⟨?_, rfl, ?_⟩
  · refine ⟨(buildMap ((flatVehicles results).map (fun v => (keyOfD v, v)))).map (·.2),
      ?_, ?_⟩
    · rw [mergeResults, mergeDedup, keyedEntries_ok _ h]
      rfl
    · intro v hv
      rcases List.mem_map.mp hv with ⟨q, hq, rfl⟩
      have hqe := buildMap_mem _ _ hq
      rcases List.mem_map.mp hqe with ⟨w, hw, rfl⟩
      exact hw
  · intro s hs
    simp [parseSection, hs]

/-- Witness for `merge_null_tolerance` on a `null`, a malformed entry
and a valid entry. -/
theorem merge_null_tolerance_witness :
    (∃ out, mergeResults cexMixedResults = .ok out ∧
       ∀ v ∈ out, v ∈ flatVehicles cexMixedResults) ∧
    parseSection none = [] ∧
    (∀ s, jsonParse (stripFences s) = none → parseSection (some s) = []) := by
  refine merge_null_tolerance cexMixedResults ?_
  intro v hv
  rw [show flatVehicles cexMixedResults = [cexVehicleA] from rfl] at hv
  simp only [List.mem_singleton] at hv
  subst hv
  exact ⟨_, rfl⟩

/-- **C1**: in the flattened vehicle sequence of a run, if two records
(at positions `i < j`) agree on `stock_number` and on `title`, then
the merged output contains exactly one record with that identity key,
namely the last record with that key in the flattened sequence. -/
theorem dedup_last_wins (results : List (Option (List Char)))
    (i j : Nat) (hij : i < j) (hj : j < (flatVehicles results).length)
    (h : ∀ v ∈ flatVehicles results, ∃ k, identKey v = .ok k)
    (_hstock : stockField ((flatVehicles results).get ⟨i, Nat.lt_trans hij hj⟩) =
               stockField ((flatVehicles results).get ⟨j, hj⟩))
    (_htitle : titleField ((flatVehicles results).get ⟨i, Nat.lt_trans hij hj⟩) =
               titleField ((flatVehicles results).get ⟨j, hj⟩)) :
    ∃ out, mergeResults results = .ok out ∧
      ∃ w, ((flatVehicles results).filter
              (fun v => keyOfD v ==
                keyOfD ((flatVehicles results).get ⟨i, Nat.lt_trans hij hj⟩))).getLast? =
            some w ∧
        out.filter
            (fun v => keyOfD v ==
              keyOfD ((flatVehicles results).get ⟨i, Nat.lt_trans hij hj⟩)) = [w] := by
  refine ⟨(buildMap ((flatVehicles results).map (fun v => (keyOfD v, v)))).map (·.2),
    ?_, ?_⟩
  · rw [mergeResults, mergeDedup, keyedEntries_ok _ h]
    rfl
  · set vs := flatVehicles results with hvs
    set vi := vs.get ⟨i, Nat.lt_trans hij hj⟩ with hvi
    set kk := keyOfD vi with hkk
    have hmem : vi ∈ vs.filter (fun v => keyOfD v == kk) :=
      List.mem_filter.mpr ⟨List.get_mem vs i (Nat.lt_trans hij hj), by simp⟩
    have hne : vs.filter (fun v => keyOfD v == kk) ≠ [] :=
      List.ne_nil_of_mem hmem
    rcases hlast : (vs.filter (fun v => keyOfD v == kk)).getLast? with _ | w
    · exact absurd (List.getLast?_eq_none_iff.mp hlast) hne
    · refine ⟨w, rfl, ?_⟩
      rw [List.filter_map]
      have hcong : ∀ q ∈ buildMap (vs.map (fun v => (keyOfD v, v))),
          ((fun v => keyOfD v == kk) ∘ (·.2)) q = (q.1 == kk) := by
        intro q hq
        rcases List.mem_map.mp (buildMap_mem _ _ hq) with ⟨x, hx, rfl⟩
        rfl
      rw [List.filter_congr hcong, buildMap_filter]
      rw [show (vs.map (fun v => (keyOfD v, v))).filter (fun p => p.1 == kk) =
          (vs.filter (fun v => keyOfD v == kk)).map (fun v => (keyOfD v, v)) from
        List.filter_map (fun v => (keyOfD v, v)) vs]
      rw [List.getLast?_map, hlast]
      have hwk : keyOfD w = kk := by
        have hwin : w ∈ (vs.filter (fun v => keyOfD v == kk)).getLast? :=
          Option.mem_def.mpr hlast
        rcases List.mem_getLast?_eq_getLast hwin with ⟨hne2, hweq⟩
        have hwmem : w ∈ vs.filter (fun v => keyOfD v == kk) := by
          rw [hweq]
          exact List.getLast_mem hne2
        exact beq_iff_eq.mp (List.mem_filter.mp hwmem).2
      simp [Option.elim, hwk]

/-- Witness for `dedup_last_wins`: two records with equal stock number
and title; the merged output keeps only the later one. -/
theorem dedup_last_wins_witness :
    ∃ out, mergeResults cexDupResults = .ok out ∧
      ∃ w, ((flatVehicles cexDupResults).filter
              (fun v => keyOfD v ==
                keyOfD ((flatVehicles cexDupResults).get ⟨0, by decide⟩))).getLast? =
            some w ∧
        out.filter
            (fun v => keyOfD v ==
              keyOfD ((flatVehicles cexDupResults).get ⟨0, by decide⟩)) = [w] := by
  refine dedup_last_wins cexDupResults 0 1 (by omega) (by decide) ?_ (by rfl) (by rfl)
  intro v hv
  rw [show flatVehicles cexDupResults = [cexVehicleA, cexVehicleB] from rfl] at hv
  simp only [List.mem_cons, List.mem_singleton] at hv
  rcases hv with rfl | rfl | hv
  · exact ⟨_, rfl⟩
  · exact ⟨_, rfl⟩
  · exact absurd hv (List.not_mem_nil v)

end RoadSense
